import Mathlib

/-!
Shallow embedding of the filtering-and-aggregation core of `diag.py`
(CJ Diagnostics — Farm Report), together with theorems settling the
specification's claims about it.

Embedded here, each translated from the source:
* the record-normalizer helpers `_parse_date_any`, `_to_float_ct` and the
  result-normalization expression shared by `load_sample` / `read_any_file`;
* the cascading filter pipeline `Specie → Farm → Disease → Result → Period`
  (`df1`, `df2`, the option lists, the period default `dmin`/`dmax`, the
  combined mask and `fdf`);
* the KPI summary, the per-farm report block (`farms`, the chosen-farm
  subset and its metrics) and the disease×result pivot.

Modelling conventions:
* A pandas `DataFrame` of records is a `List Record`; every filter builds a
  new list, as the source builds derived frames.
* Calendar dates are proleptic-Gregorian day ordinals (`toOrd 1 1 1 = 1`),
  matching Python's `date.toordinal`; `datetime.date` comparisons become
  `Int` comparisons of ordinals.
* Python floats are modelled by `ℚ`: `float(...)` literal parsing is an
  exact decimal/scientific parser.  Python-specific extras (underscore digit
  separators, `inf`/`nan` literals, sub-microsecond `timedelta` rounding)
  are not modelled; for the date-serial fallback `inf`/`nan` raise inside
  `timedelta` in the source as well, so both sides fail there.
* ASCII case mapping models Python's `str.lower`/`str.title`/`str.strip`
  on the ASCII result/CT tokens the program manipulates.
* A raised exception is `none` / the error side of the model; a pandas `nan`
  produced on purpose (absent CT) is also `none`, matching the source's use
  of `np.nan` as the absent value, not as an error.
-/

namespace Diag

/-! ### ASCII case mapping (Python `str.lower` / `str.title` on ASCII) -/

/-- The 26 (lowercase, uppercase) ASCII letter pairs. -/
def caseTable : List (Char × Char) :=
  [('a', 'A'), ('b', 'B'), ('c', 'C'), ('d', 'D'), ('e', 'E'), ('f', 'F'),
   ('g', 'G'), ('h', 'H'), ('i', 'I'), ('j', 'J'), ('k', 'K'), ('l', 'L'),
   ('m', 'M'), ('n', 'N'), ('o', 'O'), ('p', 'P'), ('q', 'Q'), ('r', 'R'),
   ('s', 'S'), ('t', 'T'), ('u', 'U'), ('v', 'V'), ('w', 'W'), ('x', 'X'),
   ('y', 'Y'), ('z', 'Z')]

/-- ASCII lowercase of one character (Python `str.lower`, per character). -/
def lcChar (c : Char) : Char :=
  match caseTable.find? (fun p => p.2 == c) with
  | some p => p.1
  | none => c

/-- ASCII uppercase of one character (Python `str.upper`, per character). -/
def ucChar (c : Char) : Char :=
  match caseTable.find? (fun p => p.1 == c) with
  | some p => p.2
  | none => c

/-- ASCII letter test (Python's "cased character" for the ASCII range). -/
def isAsciiLetter (c : Char) : Bool :=
  caseTable.any (fun p => p.1 == c || p.2 == c)

/-- Python `str.lower` on a character list. -/
def lowerList (l : List Char) : List Char :=
  l.map lcChar

/-- Python `str.lower`. -/
def lowerStr (s : String) : String :=
  ⟨lowerList s.data⟩

/-- Python `str.strip` whitespace set (ASCII). -/
def isSpaceA (c : Char) : Bool :=
  c == ' ' || c == '\t' || c == '\n' || c == '\r' || c == '\x0b' || c == '\x0c'

/-- Python `str.strip` on a character list. -/
def stripList (l : List Char) : List Char :=
  ((l.dropWhile isSpaceA).reverse.dropWhile isSpaceA).reverse

/-- Python `str.strip`. -/
def stripStr (s : String) : String :=
  ⟨stripList s.data⟩

/-- Python `str.title` on a character list: a letter is uppercased when the
previous character is not a letter, lowercased otherwise; the flag carries
whether the previous character was a letter. -/
def tcList : Bool → List Char → List Char
  | _, [] => []
  | prev, c :: rest =>
    (if isAsciiLetter c then (if prev then lcChar c else ucChar c) else c)
      :: tcList (isAsciiLetter c) rest

/-- Python `str.title`. -/
def titleStr (s : String) : String :=
  ⟨tcList false s.data⟩

/-! ### Result normalization

Source (`load_sample` line 247-248, identically `read_any_file` 261-262):
`df['Result'].astype(str).str.strip().str.title()
   .replace({'Re-Analysis': 'Re-analysis'})` — a pandas exact-value
replacement of the title-cased spelling by the canonical one. -/

/-- Result normalization applied per cell by `load_sample`/`read_any_file`. -/
def normalizeResult (s : String) : String :=
  let t := titleStr (stripStr s)
  if t = "Re-Analysis" then "Re-analysis" else t

/-! ### Calendar dates as day ordinals -/

/-- Gregorian leap-year rule. -/
def isLeapYear (y : Nat) : Bool :=
  y % 4 == 0 && (y % 100 != 0 || y % 400 == 0)

/-- Month lengths of year `y`. -/
def monthLengths (y : Nat) : List Nat :=
  [31, if isLeapYear y then 29 else 28, 31, 30, 31, 30, 31, 31, 30, 31, 30, 31]

/-- Number of days in month `m` of year `y` (0 when `m` is out of range). -/
def daysInMonth (y m : Nat) : Nat :=
  (monthLengths y).getD (m - 1) 0

/-- Days in all years before year `y` (proleptic Gregorian). -/
def daysBeforeYear (y : Nat) : Nat :=
  365 * (y - 1) + (y - 1) / 4 - (y - 1) / 100 + (y - 1) / 400

/-- Days in the months of year `y` before month `m`. -/
def daysBeforeMonth (y m : Nat) : Nat :=
  ((monthLengths y).take (m - 1)).sum

/-- Day ordinal of the calendar date `y-m-d`; `toOrd 1 1 1 = 1`, matching
Python's `date.toordinal`. -/
def toOrd (y m d : Nat) : Int :=
  (daysBeforeYear y + daysBeforeMonth y m + d : Nat)

/-! ### `datetime.strptime` for the five formats of `_parse_date_any`

CPython's `_strptime` matches `%Y` as exactly four digits, `%m` and `%d` as
one or two digits with `%m ∈ 1..12`, `%d ∈ 1..31`, requires the whole
string to be consumed, and the `datetime` constructor then enforces
`1 ≤ year` and day-of-month validity; a failure of any of these raises
`ValueError`, which the source catches to try the next format. -/

/-- Value of a digit string (caller guarantees all characters are digits). -/
def digitsVal (l : List Char) : Nat :=
  l.foldl (fun a c => a * 10 + (c.toNat - 48)) 0

/-- Python `str.split(sep)` on character lists. -/
def splitSep (sep : Char) : List Char → List (List Char)
  | [] => [[]]
  | c :: rest =>
    if c = sep then [] :: splitSep sep rest
    else
      match splitSep sep rest with
      | [] => [[c]]
      | p :: ps => (c :: p) :: ps

/-- `strptime` assembly of year/month/day component strings into a date
ordinal, with CPython's component syntax and validity checks. -/
def dateFromParts (ys ms ds : List Char) : Option Int :=
  if ys.length = 4 ∧ ys.all Char.isDigit = true
      ∧ 1 ≤ ms.length ∧ ms.length ≤ 2 ∧ ms.all Char.isDigit = true
      ∧ 1 ≤ ds.length ∧ ds.length ≤ 2 ∧ ds.all Char.isDigit = true then
    let y := digitsVal ys
    let m := digitsVal ms
    let d := digitsVal ds
    if 1 ≤ y ∧ 1 ≤ m ∧ m ≤ 12 ∧ 1 ≤ d ∧ d ≤ daysInMonth y m then
      some (toOrd y m d)
    else none
  else none

/-- `strptime(s, "%Y<sep>%m<sep>%d")`. -/
def fmtYMD (sep : Char) (l : List Char) : Option Int :=
  match splitSep sep l with
  | [p1, p2, p3] => dateFromParts p1 p2 p3
  | _ => none

/-- `strptime(s, "%m<sep>%d<sep>%Y")`. -/
def fmtMDY (sep : Char) (l : List Char) : Option Int :=
  match splitSep sep l with
  | [p1, p2, p3] => dateFromParts p3 p1 p2
  | _ => none

/-- `strptime(s, "%d<sep>%m<sep>%Y")`. -/
def fmtDMY (sep : Char) (l : List Char) : Option Int :=
  match splitSep sep l with
  | [p1, p2, p3] => dateFromParts p3 p2 p1
  | _ => none

/-- The five formats of `_parse_date_any`, in the source's order:
`%Y.%m.%d`, `%Y-%m-%d`, `%Y/%m/%d`, `%m/%d/%Y`, `%d/%m/%Y`. -/
def parseFormat : Nat → List Char → Option Int
  | 0, l => fmtYMD '.' l
  | 1, l => fmtYMD '-' l
  | 2, l => fmtYMD '/' l
  | 3, l => fmtMDY '/' l
  | 4, l => fmtDMY '/' l
  | _, _ => none

/-! ### Python `float(...)` literal parsing, exactly over `ℚ` -/

/-- Parses an optional exponent suffix (`e`/`E`, optional sign, digits) and
applies it to `base`; `some base` on empty input, `none` on trailing junk. -/
def parseExpPart (base : ℚ) (l : List Char) : Option ℚ :=
  match l with
  | [] => some base
  | e :: t =>
    if e == 'e' || e == 'E' then
      let st : Int × List Char :=
        match t with
        | '+' :: u => (1, u)
        | '-' :: u => (-1, u)
        | u => (1, u)
      let ds := st.2.takeWhile Char.isDigit
      let r := st.2.dropWhile Char.isDigit
      if ds = [] ∨ r ≠ [] then none
      else some (base * (10 : ℚ) ^ (st.1 * (digitsVal ds : Int)))
    else none

/-- Python `float(s)` on an already-stripped string: optional sign, decimal
digits with optional fractional part, optional exponent.  `none` models the
raised `ValueError`. -/
def parseFloatQ (l : List Char) : Option ℚ :=
  let sl : ℚ × List Char :=
    match l with
    | '+' :: t => (1, t)
    | '-' :: t => (-1, t)
    | t => (1, t)
  let ip := sl.2.takeWhile Char.isDigit
  let r1 := sl.2.dropWhile Char.isDigit
  match r1 with
  | '.' :: r2 =>
    let fp := r2.takeWhile Char.isDigit
    let r3 := r2.dropWhile Char.isDigit
    if ip = [] ∧ fp = [] then none
    else parseExpPart (sl.1 * ((digitsVal ip : ℚ) + (digitsVal fp : ℚ) / (10 : ℚ) ^ fp.length)) r3
  | r2 =>
    if ip = [] then none
    else parseExpPart (sl.1 * (digitsVal ip : ℚ)) r2

/-! ### `_parse_date_any` (source lines 217-229) -/

/-- The spreadsheet-serial fallback: `datetime(1899,12,30) +
timedelta(days=float(s))`, truncated to the date by `.date()`; any failure
(unparsable float, result outside `datetime`'s range) is `none`, which the
source turns into the raised `ValueError`. -/
def excelSerialOrd (l : List Char) : Option Int :=
  match parseFloatQ l with
  | none => none
  | some q =>
    let o : Int := toOrd 1899 12 30 + ⌊q⌋
    if 1 ≤ o ∧ o ≤ toOrd 9999 12 31 then some o else none

/-- `_parse_date_any`: strip, try the five formats in order, then the
spreadsheet-serial fallback; `none` models the raised `ValueError`. -/
def _parse_date_any (s : String) : Option Int :=
  let l := stripList s.data
  match parseFormat 0 l with
  | some d => some d
  | none =>
    match parseFormat 1 l with
    | some d => some d
    | none =>
      match parseFormat 2 l with
      | some d => some d
      | none =>
        match parseFormat 3 l with
        | some d => some d
        | none =>
          match parseFormat 4 l with
          | some d => some d
          | none => excelSerialOrd l

/-! ### `_to_float_ct` (source lines 231-238) -/

/-- The sentinel tokens treated as an absent CT value. -/
def ctSentinels : List String :=
  ["", "na", "none", "nan", "no ct", "n/a"]

/-- `_to_float_ct`: lowercase and trim; sentinels and unparsable values give
`none` (the source's `np.nan`); the function is total — no input raises. -/
def _to_float_ct (x : String) : Option ℚ :=
  let s := lowerStr (stripStr x)
  if s ∈ ctSentinels then none
  else
    match parseFloatQ s.data with
    | some q => some q
    | none => none

/-! ### `load_sample`'s Test_Date parsing (source lines 244-245)

`df['Test_Date'].astype(str).str.replace('.', '-', regex=False)` followed by
`datetime.strptime(x, '%Y-%m-%d').date()` — note: no strip, no other
formats, no serial fallback. -/

/-- The per-character dot-to-dash replacement of `str.replace('.', '-')`. -/
def dotToDash (c : Char) : Char :=
  if c = '.' then '-' else c

/-- Test_Date parsing on the embedded-sample path: replace every `'.'` by
`'-'`, then strict `%Y-%m-%d`; `none` models the raised `ValueError`. -/
def sampleTestDate (s : String) : Option Int :=
  fmtYMD '-' (s.data.map dotToDash)

/-! ### Records and the cascading filter pipeline (source lines 294-338)

A `Record` is one row of the normalized frame.  The source also carries a
derived boolean column `is_positive = Result.eq('Positive')` set at load
time (lines 249/263); wherever the source reads `is_positive` the embedding
tests `result = "Positive"` directly. -/

structure Record where
  number : Nat
  sample_id : String
  specie : String
  farm_name : String
  disease : String
  test_date : Int
  ct_value : String
  result : String
deriving DecidableEq

/-- The five combo-box selections of one interaction pass: the four
categorical picks and the period chosen in the date widget. -/
structure Selection where
  specie : String
  farm : String
  disease : String
  result : String
  d_start : Int
  d_end : Int
deriving DecidableEq

/-- The `"All"` sentinel option. -/
def ALL : String := "All"

/-! Sorted distinct option values: `sorted(df[col].unique().tolist())`.
Python compares strings lexicographically by code point; `lexLe` is that
comparison as a boolean, kept kernel-computable. -/

/-- Code-point lexicographic `≤` on character lists. -/
def lexLe : List Char → List Char → Bool
  | [], _ => true
  | _ :: _, [] => false
  | a :: as, b :: bs =>
    if a < b then true
    else if b < a then false
    else lexLe as bs

/-- Python string `<=`. -/
def strLe (a b : String) : Bool :=
  lexLe a.data b.data

/-- `sorted(set(...))`: the distinct values, in ascending order. -/
def sortedDistinct (l : List String) : List String :=
  List.insertionSort (fun a b => strLe a b = true) l.dedup

/-- Stage-1 narrowing: `df1 = DF if specie == ALL else DF[DF.Specie == specie]`. -/
def df1 (DF : List Record) (sel : Selection) : List Record :=
  if sel.specie = ALL then DF else DF.filter (fun r => r.specie == sel.specie)

/-- Stage-2 narrowing: `df2 = df1 if farm == ALL else df1[df1.Farm_Name == farm]`. -/
def df2 (DF : List Record) (sel : Selection) : List Record :=
  if sel.farm = ALL then df1 DF sel else (df1 DF sel).filter (fun r => r.farm_name == sel.farm)

/-- `specie_opts = [ALL] + sorted(DF.Specie.unique())` (line 304). -/
def specie_opts (DF : List Record) : List String :=
  ALL :: sortedDistinct (DF.map (·.specie))

/-- `farm_opts = [ALL] + sorted(df1.Farm_Name.unique())` (line 310). -/
def farm_opts (DF : List Record) (sel : Selection) : List String :=
  ALL :: sortedDistinct ((df1 DF sel).map (·.farm_name))

/-- `disease_opts = [ALL] + sorted(df2.Disease.unique())` (line 316). -/
def disease_opts (DF : List Record) (sel : Selection) : List String :=
  ALL :: sortedDistinct ((df2 DF sel).map (·.disease))

/-- The fixed result option list (line 320). -/
def result_opts : List String :=
  [ALL, "Positive", "Negative", "Re-analysis"]

/-- Minimum of a list of day ordinals (`Series.min()`; `none` on empty). -/
def listMin : List Int → Option Int
  | [] => none
  | x :: xs =>
    match listMin xs with
    | none => some x
    | some m => some (min x m)

/-- Maximum of a list of day ordinals (`Series.max()`; `none` on empty). -/
def listMax : List Int → Option Int
  | [] => none
  | x :: xs =>
    match listMax xs with
    | none => some x
    | some m => some (max x m)

/-- `dmin = df2['Test_Date'].min()` (line 323): the period default's lower
bound, computed from the specie+farm-narrowed frame `df2`. -/
def dmin (DF : List Record) (sel : Selection) : Option Int :=
  listMin ((df2 DF sel).map (·.test_date))

/-- `dmax = df2['Test_Date'].max()` (line 323): the period default's upper
bound, computed from the specie+farm-narrowed frame `df2`. -/
def dmax (DF : List Record) (sel : Selection) : Option Int :=
  listMax ((df2 DF sel).map (·.test_date))

/-- The combined row mask of lines 331-336: period bounds inclusive, then
`&=` disease and result equality unless the selection is `ALL`. -/
def keepRow (sel : Selection) (r : Record) : Bool :=
  decide (sel.d_start ≤ r.test_date) && decide (r.test_date ≤ sel.d_end)
    && (sel.disease == ALL || r.disease == sel.disease)
    && (sel.result == ALL || r.result == sel.result)

/-- `fdf = df2.loc[mask]` (line 338): the fully filtered frame. -/
def fdf (DF : List Record) (sel : Selection) : List Record :=
  (df2 DF sel).filter (keepRow sel)

/-! Stage-by-stage candidate sets, for the monotonicity claim: the source
applies disease, result and period in one mask over `df2`; these name the
intermediate sets that mask passes through, in selection-stage order. -/

/-- Candidate set after the disease stage. -/
def stageDisease (DF : List Record) (sel : Selection) : List Record :=
  if sel.disease = ALL then df2 DF sel
  else (df2 DF sel).filter (fun r => r.disease == sel.disease)

/-- Candidate set after the result stage. -/
def stageResult (DF : List Record) (sel : Selection) : List Record :=
  if sel.result = ALL then stageDisease DF sel
  else (stageDisease DF sel).filter (fun r => r.result == sel.result)

/-- Candidate set after the period stage. -/
def stagePeriod (DF : List Record) (sel : Selection) : List Record :=
  (stageResult DF sel).filter
    (fun r => decide (sel.d_start ≤ r.test_date) && decide (r.test_date ≤ sel.d_end))

/-! ### KPIs, farm cards, report and pivot (source lines 345-349, 363,
444-460, 477-484) -/

/-- The KPI block of one record subset. -/
structure Summary where
  total : Nat
  positive : Nat
  negative : Nat
  re_analysis : Nat
  positive_rate : ℚ

/-- Lines 345-349: `total = len(fdf)`, `pos = is_positive.sum()` (exact
`Result == 'Positive'`), `neg = (Result == 'Negative').sum()`,
`rea = (Result.str.lower() == 're-analysis').sum()`,
`rate = pos/total*100 if total else 0.0`. -/
def summarize (l : List Record) : Summary :=
  let total := l.length
  let pos := (l.filter (fun r => r.result == "Positive")).length
  let neg := (l.filter (fun r => r.result == "Negative")).length
  let rea := (l.filter (fun r => lowerStr r.result == "re-analysis")).length
  { total := total
    positive := pos
    negative := neg
    re_analysis := rea
    positive_rate := if total ≠ 0 then (pos : ℚ) / (total : ℚ) * 100 else 0 }

/-- `farms = sorted(fdf['Farm_Name'].unique())` (line 363): the farms
offered for cards and as report choices come from the filtered frame. -/
def farms (DF : List Record) (sel : Selection) : List String :=
  sortedDistinct ((fdf DF sel).map (·.farm_name))

/-- The report block (lines 449-457): `rep_farm` is picked from `farms`;
when one is picked, `rep = fdf[fdf.Farm_Name == rep_farm]` and its metrics
are shown.  No farm outside `farms` can be picked and no exception exists
on this path, so the result is `none` exactly when `rep_farm` is not
offered. -/
def buildReport (DF : List Record) (sel : Selection) (rep_farm : String) : Option Summary :=
  if rep_farm ∈ farms DF sel then
    some (summarize ((fdf DF sel).filter (fun r => r.farm_name == rep_farm)))
  else none

/-- Result-value columns of the disease×result pivot (line 459):
`pivot_table` emits the distinct `Result` values present, ascending. -/
def pivotCols (l : List Record) : List String :=
  sortedDistinct (l.map (·.result))

/-- Disease rows of the pivot (line 459): distinct diseases, ascending. -/
def pivotRowsD (l : List Record) : List String :=
  sortedDistinct (l.map (·.disease))

/-- One pivot cell: `aggfunc='count'` of the non-null `number` column over
the `(disease, result)` group, `fill_value=0` for absent combinations. -/
def pivotCell (l : List Record) (dis res : String) : Nat :=
  (l.filter (fun r => r.disease == dis && r.result == res)).length

/-- One pivot row: the cells of disease `dis` across all result columns. -/
def pivotRow (l : List Record) (dis : String) : List Nat :=
  (pivotCols l).map (pivotCell l dis)

/-! ## Helper lemmas -/

/-! ### `lexLe`/`strLe` agree with the lexicographic order on `String` -/

theorem lexLe_iff_not_lex (a b : List Char) :
    lexLe a b = true ↔ ¬ List.Lex (· < ·) b a := by
  induction a generalizing b with
  | nil =>
    cases b with
    | nil => exact iff_of_true rfl (fun h => by cases h)
    | cons y ys => exact iff_of_true rfl (fun h => by cases h)
  | cons x xs ih =>
    cases b with
    | nil => exact iff_of_false (by simp [lexLe]) (fun h => h List.Lex.nil)
    | cons y ys =>
      rcases lt_trichotomy x y with hxy | hxy | hxy
      · refine iff_of_true ?_ ?_
        · simp [lexLe, hxy]
        · intro h
          cases h with
          | rel h' => exact absurd h' (not_lt_of_gt hxy)
          | cons h' => exact absurd rfl (ne_of_gt hxy)
      · subst hxy
        have h1 : ¬ x < x := lt_irrefl x
        have h2 : lexLe (x :: xs) (x :: ys) = lexLe xs ys := by
          simp [lexLe, h1]
        rw [h2, ih ys]
        constructor
        · intro h hc
          cases hc with
          | rel h' => exact h1 h'
          | cons h' => exact h h'
        · intro h hc
          exact h (List.Lex.cons hc)
      · refine iff_of_false ?_ ?_
        · simp [lexLe, hxy, not_lt_of_gt hxy]
        · intro h
          exact h (List.Lex.rel hxy)

theorem strLe_iff {a b : String} : strLe a b = true ↔ a ≤ b := by
  rw [← not_lt, String.lt_iff_toList_lt]
  exact lexLe_iff_not_lex a.data b.data

/-! ### `sortedDistinct` properties -/

theorem mem_sortedDistinct {x : String} {l : List String} :
    x ∈ sortedDistinct l ↔ x ∈ l := by
  unfold sortedDistinct
  rw [(List.perm_insertionSort _ l.dedup).mem_iff, List.mem_dedup]

theorem nodup_sortedDistinct (l : List String) : (sortedDistinct l).Nodup := by
  unfold sortedDistinct
  exact ((List.perm_insertionSort _ l.dedup).nodup_iff).mpr (List.nodup_dedup l)

theorem sorted_sortedDistinct (l : List String) :
    List.Sorted (· ≤ ·) (sortedDistinct l) := by
  haveI hT : IsTotal String (fun a b => strLe a b = true) :=
    ⟨fun a b => by
      rcases le_total a b with h | h
      · exact Or.inl (strLe_iff.mpr h)
      · exact Or.inr (strLe_iff.mpr h)⟩
  haveI hTr : IsTrans String (fun a b => strLe a b = true) :=
    ⟨fun a b c hab hbc => strLe_iff.mpr (le_trans (strLe_iff.mp hab) (strLe_iff.mp hbc))⟩
  have h := List.sorted_insertionSort (fun a b => strLe a b = true) l.dedup
  exact h.imp (fun hab => strLe_iff.mp hab)

/-! ### `listMin` / `listMax` properties -/

theorem listMin_isSome {l : List Int} (h : l ≠ []) : ∃ m, listMin l = some m := by
  cases l with
  | nil => exact absurd rfl h
  | cons x xs =>
    cases hx : listMin xs with
    | none => exact ⟨x, by simp [listMin, hx]⟩
    | some m => exact ⟨min x m, by simp [listMin, hx]⟩

theorem listMin_le {l : List Int} {m x : Int} (hm : listMin l = some m) (hx : x ∈ l) :
    m ≤ x := by
  induction l generalizing m with
  | nil => cases hx
  | cons a t ih =>
    rcases List.mem_cons.mp hx with rfl | hx'
    · cases ht : listMin t with
      | none => simp [listMin, ht] at hm; omega
      | some mt => simp [listMin, ht] at hm; subst hm; exact min_le_left _ _
    · cases ht : listMin t with
      | none =>
        cases t with
        | nil => cases hx'
        | cons b u => cases h2 : listMin u <;> simp [listMin, h2] at ht
      | some mt =>
        simp [listMin, ht] at hm
        subst hm
        exact le_trans (min_le_right _ _) (ih ht hx')

theorem listMin_mem {l : List Int} {m : Int} (hm : listMin l = some m) : m ∈ l := by
  induction l generalizing m with
  | nil => cases hm
  | cons a t ih =>
    cases ht : listMin t with
    | none =>
      simp [listMin, ht] at hm
      subst hm
      exact List.mem_cons_self a t
    | some mt =>
      simp [listMin, ht] at hm
      subst hm
      rcases min_choice a mt with h | h
      · rw [h]; exact List.mem_cons_self a t
      · rw [h]; exact List.mem_cons_of_mem a (ih ht)

theorem listMax_isSome {l : List Int} (h : l ≠ []) : ∃ m, listMax l = some m := by
  cases l with
  | nil => exact absurd rfl h
  | cons x xs =>
    cases hx : listMax xs with
    | none => exact ⟨x, by simp [listMax, hx]⟩
    | some m => exact ⟨max x m, by simp [listMax, hx]⟩

theorem le_listMax {l : List Int} {m x : Int} (hm : listMax l = some m) (hx : x ∈ l) :
    x ≤ m := by
  induction l generalizing m with
  | nil => cases hx
  | cons a t ih =>
    rcases List.mem_cons.mp hx with rfl | hx'
    · cases ht : listMax t with
      | none => simp [listMax, ht] at hm; omega
      | some mt => simp [listMax, ht] at hm; subst hm; exact le_max_left _ _
    · cases ht : listMax t with
      | none =>
        cases t with
        | nil => cases hx'
        | cons b u => cases h2 : listMax u <;> simp [listMax, h2] at ht
      | some mt =>
        simp [listMax, ht] at hm
        subst hm
        exact le_trans (ih ht hx') (le_max_right _ _)

/-! ### Counting lemmas for the pivot -/

theorem sum_map_indicator (cols : List String) (key : String) (hnd : cols.Nodup)
    (hmem : key ∈ cols) :
    (cols.map (fun c => if key = c then 1 else 0)).sum = 1 := by
  induction cols with
  | nil => cases hmem
  | cons c cs ih =>
    have hnd' := List.nodup_cons.mp hnd
    by_cases h : key = c
    · subst h
      have hzero : (cs.map (fun c => if key = c then 1 else 0)).sum = 0 := by
        apply List.sum_eq_zero
        intro x hx
        rcases List.mem_map.mp hx with ⟨c', hc', rfl⟩
        have : key ≠ c' := fun he => hnd'.1 (he ▸ hc')
        simp [this]
      simp [hzero]
    · have hmem' : key ∈ cs := by
        rcases List.mem_cons.mp hmem with h' | h'
        · exact absurd h' h
        · exact h'
      simp [h, ih hnd'.2 hmem']

theorem sum_map_addNat (f g : String → Nat) (cols : List String) :
    (cols.map (fun c => f c + g c)).sum = (cols.map f).sum + (cols.map g).sum := by
  induction cols with
  | nil => rfl
  | cons c cs ih => simp [ih]; omega

theorem sum_count_eq_length (cols : List String) (hnd : cols.Nodup) :
    ∀ l : List Record, (∀ r ∈ l, r.result ∈ cols) →
      (cols.map (fun c => (l.filter (fun r => r.result == c)).length)).sum = l.length := by
  intro l
  induction l with
  | nil => intro _; simp
  | cons r t ih =>
    intro hcov
    have hr : r.result ∈ cols := hcov r (List.mem_cons_self r t)
    have ht : ∀ x ∈ t, x.result ∈ cols := fun x hx => hcov x (List.mem_cons_of_mem r hx)
    have hsplit : ∀ c, ((r :: t).filter (fun x => x.result == c)).length
        = (t.filter (fun x => x.result == c)).length + (if r.result = c then 1 else 0) := by
      intro c
      by_cases h : r.result = c
      · simp [List.filter_cons, h]
      · have hne : (r.result == c) = false := beq_eq_false_iff_ne.mpr h
        simp [List.filter_cons, hne, h]
    calc (cols.map (fun c => ((r :: t).filter (fun x => x.result == c)).length)).sum
        = (cols.map (fun c => (t.filter (fun x => x.result == c)).length
            + (if r.result = c then 1 else 0))).sum := by
          exact congrArg _ (List.map_congr_left (fun c _ => hsplit c))
      _ = (cols.map (fun c => (t.filter (fun x => x.result == c)).length)).sum
            + (cols.map (fun c => if r.result = c then 1 else 0)).sum :=
          sum_map_addNat _ _ cols
      _ = t.length + 1 := by rw [ih ht, sum_map_indicator cols r.result hnd hr]
      _ = (r :: t).length := by simp

theorem pivotCell_filter (l : List Record) (dis res : String) :
    pivotCell l dis res
      = ((l.filter (fun r => r.disease == dis)).filter (fun r => r.result == res)).length := by
  unfold pivotCell
  rw [List.filter_filter]
  congr 1
  apply List.filter_congr
  intro a _
  cases h1 : a.disease == dis <;> cases h2 : a.result == res <;> simp [h1, h2]

theorem pivotRow_sum_eq (l : List Record) (dis : String) :
    (pivotRow l dis).sum = (l.filter (fun r => r.disease == dis)).length := by
  unfold pivotRow
  have hcols : ∀ r ∈ l.filter (fun r => r.disease == dis), r.result ∈ pivotCols l := by
    intro r hr
    have hrl : r ∈ l := List.mem_of_mem_filter hr
    exact mem_sortedDistinct.mpr (List.mem_map.mpr ⟨r, hrl, rfl⟩)
  calc ((pivotCols l).map (pivotCell l dis)).sum
      = ((pivotCols l).map (fun c =>
          ((l.filter (fun r => r.disease == dis)).filter (fun r => r.result == c)).length)).sum :=
        congrArg _ (List.map_congr_left (fun c _ => pivotCell_filter l dis c))
    _ = (l.filter (fun r => r.disease == dis)).length :=
        sum_count_eq_length _ (nodup_sortedDistinct _) _ hcols

/-! ### The combined mask equals the staged filters -/

theorem fdf_eq_stagePeriod (DF : List Record) (sel : Selection) :
    fdf DF sel = stagePeriod DF sel := by
  unfold fdf stagePeriod stageResult stageDisease keepRow
  by_cases hd : sel.disease = ALL <;> by_cases hr : sel.result = ALL
  · rw [if_pos hd, if_pos hr]
    apply List.filter_congr
    intro a _
    simp [hd, hr]
  · rw [if_pos hd, if_neg hr, List.filter_filter]
    apply List.filter_congr
    intro a _
    have hrb : (sel.result == ALL) = false := beq_eq_false_iff_ne.mpr hr
    simp [hd, hrb, Bool.and_assoc]
  · rw [if_neg hd, if_pos hr, List.filter_filter]
    apply List.filter_congr
    intro a _
    have hdb : (sel.disease == ALL) = false := beq_eq_false_iff_ne.mpr hd
    simp [hr, hdb, Bool.and_assoc]
  · rw [if_neg hd, if_neg hr, List.filter_filter, List.filter_filter]
    apply List.filter_congr
    intro a _
    have hdb : (sel.disease == ALL) = false := beq_eq_false_iff_ne.mpr hd
    have hrb : (sel.result == ALL) = false := beq_eq_false_iff_ne.mpr hr
    simp only [hdb, hrb, Bool.false_or]
    cases hp1 : decide (sel.d_start ≤ a.test_date) <;>
      cases hp2 : decide (a.test_date ≤ sel.d_end) <;>
      cases h3 : a.disease == sel.disease <;>
      cases h4 : a.result == sel.result <;> rfl

/-- `df2` reads only the specie and farm components of the selection. -/
theorem df2_depends_only_on_specie_farm (DF : List Record) (sel sel' : Selection)
    (hs : sel.specie = sel'.specie) (hf : sel.farm = sel'.farm) :
    df2 DF sel = df2 DF sel' := by
  unfold df2 df1
  rw [hs, hf]

theorem listMax_mem {l : List Int} {m : Int} (hm : listMax l = some m) : m ∈ l := by
  induction l generalizing m with
  | nil => cases hm
  | cons a t ih =>
    cases ht : listMax t with
    | none =>
      simp [listMax, ht] at hm
      subst hm
      exact List.mem_cons_self a t
    | some mt =>
      simp [listMax, ht] at hm
      subst hm
      rcases max_choice a mt with h | h
      · rw [h]; exact List.mem_cons_self a t
      · rw [h]; exact List.mem_cons_of_mem a (ih ht)

/-! ## Concrete fixtures used by counterexamples and witnesses -/

/-- Row 1 of the embedded sample (`2025.10.28` has ordinal `toOrd 2025 10 28`). -/
def recAbcede : Record :=
  ⟨1, "2025-001", "Swine", "Abcede", "ASF", toOrd 2025 10 28, "No Ct", "Negative"⟩

/-- Row 7 of the embedded sample. -/
def recCJOY1 : Record :=
  ⟨7, "2025-007", "Broiler", "CJOY", "IBD", toOrd 2025 10 30, "31.5", "Positive"⟩

/-- Row 8 of the embedded sample. -/
def recCJOY2 : Record :=
  ⟨8, "2025-008", "Broiler", "CJOY", "IBD", toOrd 2025 10 30, "33.9", "Re-analysis"⟩

/-- Row 11 of the embedded sample. -/
def recCJOY3 : Record :=
  ⟨11, "2025-011", "Broiler", "CJOY", "IBD", toOrd 2025 10 30, "No Ct", "Negative"⟩

/-- Row 23 of the embedded sample. -/
def recCreekview : Record :=
  ⟨23, "2025-023", "Swine", "Creekview", "PRRS", toOrd 2025 10 28, "28.7", "Positive"⟩

/-- A four-row record set drawn from the embedded sample. -/
def wDF : List Record :=
  [recAbcede, recCJOY1, recCJOY2, recCreekview]

/-- A selection with every stage left at `"All"` and a period covering the
sample dates. -/
def selAll : Selection :=
  ⟨"All", "All", "All", "All", toOrd 2025 1 1, toOrd 2025 12 31⟩

/-- The `specie = "Swine"` selection of the specification's scenario. -/
def selSwine : Selection :=
  ⟨"Swine", "All", "All", "All", toOrd 2025 1 1, toOrd 2025 12 31⟩

/-- The scenario rows of claim C5: `(Positive, 31.5)`, `(Re-analysis, 33.9)`,
`(Negative, "No Ct")` for farm CJOY. -/
def c5rows : List Record :=
  [recCJOY1, recCJOY2, recCJOY3]

/-! ## Claims -/

/-- **C4.** For every record set and every selection, filter narrowing is
monotonic: the candidate set after each stage (specie, then farm, then
disease, then result, then period) is a subset of the candidate set after
the previous stage, and a selection of `"All"` performs no narrowing at its
stage.  The source applies disease, result and period as one combined mask
over `df2`; `fdf = stagePeriod` ties that mask to the stage-by-stage view. -/
theorem c4_filter_narrowing_monotonic (DF : List Record) (sel : Selection) :
    df1 DF sel ⊆ DF
    ∧ df2 DF sel ⊆ df1 DF sel
    ∧ stageDisease DF sel ⊆ df2 DF sel
    ∧ stageResult DF sel ⊆ stageDisease DF sel
    ∧ stagePeriod DF sel ⊆ stageResult DF sel
    ∧ fdf DF sel = stagePeriod DF sel
    ∧ (sel.specie = ALL → df1 DF sel = DF)
    ∧ (sel.farm = ALL → df2 DF sel = df1 DF sel)
    ∧ (sel.disease = ALL → stageDisease DF sel = df2 DF sel)
    ∧ (sel.result = ALL → stageResult DF sel = stageDisease DF sel) := by
  refine ⟨?_, ?_, ?_, ?_, ?_, fdf_eq_stagePeriod DF sel, ?_, ?_, ?_, ?_⟩
  · unfold df1
    split
    · exact fun _ h => h
    · exact List.filter_subset' DF
  · unfold df2
    split
    · exact fun _ h => h
    · exact List.filter_subset' _
  · unfold stageDisease
    split
    · exact fun _ h => h
    · exact List.filter_subset' _
  · unfold stageResult
    split
    · exact fun _ h => h
    · exact List.filter_subset' _
  · exact List.filter_subset' _
  · intro h
    unfold df1
    rw [if_pos h]
  · intro h
    unfold df2
    rw [if_pos h]
  · intro h
    unfold stageDisease
    rw [if_pos h]
  · intro h
    unfold stageResult
    rw [if_pos h]

/-- Witness for C4 at a concrete input: with everything `"All"`, the first
stage does not narrow, and the filtered frame is the staged period filter. -/
theorem c4_filter_narrowing_monotonic_witness :
    df1 wDF selAll = wDF ∧ fdf wDF selAll = stagePeriod wDF selAll := by
  have h := c4_filter_narrowing_monotonic wDF selAll
  exact ⟨h.2.2.2.2.2.2.1 rfl, h.2.2.2.2.2.1⟩

/-- **C3.** For every record set and every selection, the option list
offered at each of the computed stages is exactly `"All"` plus the sorted
distinct values of that stage's field within the previous stage's candidate
set: specie options from the full set, farm options from the
specie-narrowed set, disease options from the specie+farm-narrowed set
(the claim's sources are lines 304-317; the result stage's list, line 320,
is a fixed enum and not part of this claim).  In particular, selecting
`specie = "Swine"` excludes from the farm options every farm with zero
Swine rows, even if that farm has rows under other species. -/
theorem c3_option_lists_from_previous_stage (DF : List Record) (sel : Selection) :
    (∀ x, x ∈ specie_opts DF ↔ (x = ALL ∨ ∃ r ∈ DF, r.specie = x))
    ∧ (∀ x, x ∈ farm_opts DF sel ↔ (x = ALL ∨ ∃ r ∈ df1 DF sel, r.farm_name = x))
    ∧ (∀ x, x ∈ disease_opts DF sel ↔ (x = ALL ∨ ∃ r ∈ df2 DF sel, r.disease = x))
    ∧ List.Sorted (· ≤ ·) ((specie_opts DF).tail)
    ∧ ((specie_opts DF).tail).Nodup
    ∧ List.Sorted (· ≤ ·) ((farm_opts DF sel).tail)
    ∧ ((farm_opts DF sel).tail).Nodup
    ∧ List.Sorted (· ≤ ·) ((disease_opts DF sel).tail)
    ∧ ((disease_opts DF sel).tail).Nodup
    ∧ (sel.specie = "Swine" →
        ∀ f, f ∈ farm_opts DF sel → f ≠ ALL →
          ∃ r ∈ DF, r.specie = "Swine" ∧ r.farm_name = f) := by
  have hmem : ∀ (g : Record → String) (l : List Record) (x : String),
      x ∈ ALL :: sortedDistinct (l.map g) ↔ (x = ALL ∨ ∃ r ∈ l, g r = x) := by
    intro g l x
    rw [List.mem_cons, mem_sortedDistinct, List.mem_map]
  refine ⟨hmem (·.specie) DF, hmem (·.farm_name) _, hmem (·.disease) _,
    sorted_sortedDistinct _, nodup_sortedDistinct _,
    sorted_sortedDistinct _, nodup_sortedDistinct _,
    sorted_sortedDistinct _, nodup_sortedDistinct _, ?_⟩
  intro hS f hf hne
  rcases (hmem (·.farm_name) (df1 DF sel) f).mp hf with h | ⟨r, hr, hfr⟩
  · exact absurd h hne
  · have hd1 : df1 DF sel = DF.filter (fun r => r.specie == sel.specie) := by
      unfold df1
      rw [if_neg (by rw [hS]; decide)]
    rw [hd1] at hr
    rcases List.mem_filter.mp hr with ⟨hrDF, hrsp⟩
    refine ⟨r, hrDF, ?_, hfr⟩
    rw [← hS]
    exact eq_of_beq hrsp

/-- Witness for C3: on the four-row fixture with `specie = "Swine"`, the
offered farm "Abcede" indeed has a Swine row, by the theorem's scenario
clause; and "CJOY" (Broiler-only) is not offered. -/
theorem c3_option_lists_from_previous_stage_witness :
    (∃ r ∈ wDF, r.specie = "Swine" ∧ r.farm_name = "Abcede")
    ∧ "CJOY" ∉ farm_opts wDF selSwine := by
  constructor
  · exact (c3_option_lists_from_previous_stage wDF selSwine).2.2.2.2.2.2.2.2.2
      rfl "Abcede" (by decide) (by decide)
  · intro hmem
    have h := ((c3_option_lists_from_previous_stage wDF selSwine).2.1 "CJOY").mp hmem
    revert h
    decide

/-! ### C1 — the period default -/

/-- The period default's lower bound as claim C1 describes it (following the
spec's words, for comparison with the source's `dmin`): the minimum
`test_date` of the set narrowed by all four upstream selections, i.e. of the
specie+farm+disease+result-narrowed set. -/
def dminClaimed (DF : List Record) (sel : Selection) : Option Int :=
  listMin ((stageResult DF sel).map (·.test_date))

/-- The period default's upper bound as claim C1 describes it (following the
spec's words, for comparison with the source's `dmax`). -/
def dmaxClaimed (DF : List Record) (sel : Selection) : Option Int :=
  listMax ((stageResult DF sel).map (·.test_date))

/-- Two same-specie, same-farm records whose diseases and dates differ. -/
def c1DF : List Record :=
  [⟨1, "s1", "Swine", "F", "D1", toOrd 2025 1 10, "No Ct", "Negative"⟩,
   ⟨2, "s2", "Swine", "F", "D2", toOrd 2025 2 20, "No Ct", "Negative"⟩]

/-- A selection narrowing by disease `"D1"` only. -/
def c1sel : Selection :=
  ⟨"All", "All", "D1", "All", toOrd 2025 1 1, toOrd 2025 12 31⟩

/-- **C1, counterexample.** The source computes the period default from
`df2`, which reflects only the specie and farm selections (line 323, from
the specie+farm-narrowed frame), not the disease or result selection: with
disease `"D1"` selected, the upper default bound stays at the date of the
`"D2"` record, while the bound the claim describes would move down. -/
theorem c1_period_default_counterexample :
    dmax c1DF c1sel = some (toOrd 2025 2 20)
    ∧ dmaxClaimed c1DF c1sel = some (toOrd 2025 1 10)
    ∧ dmax c1DF c1sel ≠ dmaxClaimed c1DF c1sel := by
  refine ⟨rfl, rfl, ?_⟩
  decide

/-- **C1, amended.** For every record set and every selection, the default
period bounds offered at the period stage are the minimum and maximum
`test_date` of the set narrowed by the specie and farm selections only
(`df2`): every `df2` row lies within the bounds, each bound is attained by a
`df2` row, and the bounds are unchanged by the disease and result
selections (they reflect only the upstream specie and farm choices, not the
period choice itself and not disease or result). -/
theorem c1_period_default_amended (DF : List Record) (sel : Selection) :
    (∀ r ∈ df2 DF sel, ∃ lo hi, dmin DF sel = some lo ∧ dmax DF sel = some hi
        ∧ lo ≤ r.test_date ∧ r.test_date ≤ hi)
    ∧ (∀ lo, dmin DF sel = some lo → ∃ r ∈ df2 DF sel, r.test_date = lo)
    ∧ (∀ hi, dmax DF sel = some hi → ∃ r ∈ df2 DF sel, r.test_date = hi)
    ∧ (∀ sel', sel.specie = sel'.specie → sel.farm = sel'.farm →
        dmin DF sel = dmin DF sel' ∧ dmax DF sel = dmax DF sel') := by
  refine ⟨?_, ?_, ?_, ?_⟩
  · intro r hr
    have hmem : r.test_date ∈ (df2 DF sel).map (·.test_date) :=
      List.mem_map.mpr ⟨r, hr, rfl⟩
    have hne : (df2 DF sel).map (·.test_date) ≠ [] := List.ne_nil_of_mem hmem
    rcases listMin_isSome hne with ⟨lo, hlo⟩
    rcases listMax_isSome hne with ⟨hi, hhi⟩
    exact ⟨lo, hi, hlo, hhi, listMin_le hlo hmem, le_listMax hhi hmem⟩
  · intro lo hlo
    rcases List.mem_map.mp (listMin_mem hlo) with ⟨r, hr, hrd⟩
    exact ⟨r, hr, hrd⟩
  · intro hi hhi
    rcases List.mem_map.mp (listMax_mem hhi) with ⟨r, hr, hrd⟩
    exact ⟨r, hr, hrd⟩
  · intro sel' hs hf
    unfold dmin dmax
    rw [df2_depends_only_on_specie_farm DF sel sel' hs hf]
    exact ⟨rfl, rfl⟩

/-- Witness for the amended C1: on the counterexample data, changing the
disease selection from `"D1"` to `"All"` leaves both default bounds
unchanged, and the attained upper bound is the `"D2"` row's date. -/
theorem c1_period_default_amended_witness :
    (dmin c1DF c1sel = dmin c1DF selAll ∧ dmax c1DF c1sel = dmax c1DF selAll)
    ∧ ∃ r ∈ df2 c1DF c1sel, r.test_date = toOrd 2025 2 20 := by
  constructor
  · exact (c1_period_default_amended c1DF c1sel).2.2.2 selAll rfl rfl
  · exact (c1_period_default_amended c1DF c1sel).2.2.1 (toOrd 2025 2 20) rfl

/-! ### C2 — the report path and the absent `EmptyFarmError` -/

/-- A selection whose specie pick (`"Layer"`) filters the Swine-only fixture
to zero rows. -/
def c2sel : Selection :=
  ⟨"Layer", "All", "All", "All", toOrd 2025 1 1, toOrd 2025 12 31⟩

/-- **C2, counterexample.** The chosen farm "Abcede" has a row in the base
record set but zero rows under the current filters; the claim says a report
with `total 0` is still built, but the source offers only
`farms = sorted(fdf.Farm_Name.unique())` (line 363) as report choices, so
no report is built at all for that farm — and no `EmptyFarmError` (or any
other exception) exists anywhere on this path. -/
theorem c2_report_counterexample :
    (∃ r ∈ [recAbcede], r.farm_name = "Abcede")
    ∧ fdf [recAbcede] c2sel = []
    ∧ buildReport [recAbcede] c2sel "Abcede" = none := by
  exact ⟨⟨recAbcede, List.mem_cons_self _ _, rfl⟩, rfl, rfl⟩

/-- **C2, amended.** The source has no `EmptyFarmError`: the farm for the
report is chosen from the farms present in the *filtered* frame, so a
report is built exactly when the chosen farm has at least one row under the
current filters — whether or not it has rows in the base set — and every
report that is built has `total ≥ 1`.  A farm filtered to zero rows cannot
be chosen and yields no report (and no error); a zero-total report is never
produced. -/
theorem c2_report_amended (DF : List Record) (sel : Selection) (f : String) :
    ((buildReport DF sel f).isSome = true ↔ ∃ r ∈ fdf DF sel, r.farm_name = f)
    ∧ (∀ s, buildReport DF sel f = some s → 1 ≤ s.total) := by
  have hfarm : f ∈ farms DF sel ↔ ∃ r ∈ fdf DF sel, r.farm_name = f := by
    unfold farms
    rw [mem_sortedDistinct, List.mem_map]
  constructor
  · constructor
    · intro hs
      by_cases hf : f ∈ farms DF sel
      · exact hfarm.mp hf
      · unfold buildReport at hs
        rw [if_neg hf] at hs
        cases hs
    · intro hex
      unfold buildReport
      rw [if_pos (hfarm.mpr hex)]
      rfl
  · intro s hs
    by_cases hf : f ∈ farms DF sel
    · unfold buildReport at hs
      rw [if_pos hf] at hs
      have hsum := Option.some.inj hs
      rcases hfarm.mp hf with ⟨r, hr, hrf⟩
      have hrsub : r ∈ (fdf DF sel).filter (fun r => r.farm_name == f) :=
        List.mem_filter.mpr ⟨hr, beq_iff_eq.mpr hrf⟩
      have hpos : 0 < ((fdf DF sel).filter (fun r => r.farm_name == f)).length :=
        List.length_pos.mpr (List.ne_nil_of_mem hrsub)
      rw [← hsum]
      exact hpos
    · unfold buildReport at hs
      rw [if_neg hf] at hs
      cases hs

/-- Witness for the amended C2: on the fixture with no narrowing, farm
"Abcede" has a filtered row, so its report is built and has `total ≥ 1`. -/
theorem c2_report_amended_witness :
    (buildReport wDF selAll "Abcede").isSome = true
    ∧ 1 ≤ (summarize ((fdf wDF selAll).filter (fun r => r.farm_name == "Abcede"))).total := by
  have h := c2_report_amended wDF selAll "Abcede"
  refine ⟨h.1.mpr ⟨recAbcede, by decide, rfl⟩, h.2 _ rfl⟩

/-! ### C5 — the KPI summary -/

/-- **C5.** For every record subset, the summary computes `total` as the
number of records, `positive`/`negative` by exact match on the result
field, `re_analysis` case-insensitively on the normalized value
(`Result.str.lower() == 're-analysis'`), and
`positive_rate = positive/total*100` when `total > 0`, else `0.0`.  In
particular the scenario rows `(Positive, 31.5)`, `(Re-analysis, 33.9)`,
`(Negative, "No Ct")` yield total 3, positive 1, negative 1, re-analysis 1
and rate `100/3`, displayed to one decimal as `33.3`
(`333 ≤ 10·rate < 334`). -/
theorem c5_summary_counts_and_rate (l : List Record) :
    (summarize l).total = l.length
    ∧ (summarize l).positive = (l.filter (fun r => r.result == "Positive")).length
    ∧ (summarize l).negative = (l.filter (fun r => r.result == "Negative")).length
    ∧ (summarize l).re_analysis = (l.filter (fun r => lowerStr r.result == "re-analysis")).length
    ∧ (l.length ≠ 0 → (summarize l).positive_rate
        = ((summarize l).positive : ℚ) / ((summarize l).total : ℚ) * 100)
    ∧ (l.length = 0 → (summarize l).positive_rate = 0)
    ∧ (summarize c5rows).total = 3
    ∧ (summarize c5rows).positive = 1
    ∧ (summarize c5rows).negative = 1
    ∧ (summarize c5rows).re_analysis = 1
    ∧ (summarize c5rows).positive_rate = 100 / 3
    ∧ (333 : ℚ) ≤ 10 * (summarize c5rows).positive_rate
    ∧ 10 * (summarize c5rows).positive_rate < 334 := by
  have hrate : ∀ m : List Record, m.length ≠ 0 → (summarize m).positive_rate
      = ((summarize m).positive : ℚ) / ((summarize m).total : ℚ) * 100 := by
    intro m hm
    show (if m.length ≠ 0 then
        ((m.filter (fun r => r.result == "Positive")).length : ℚ) / (m.length : ℚ) * 100
      else 0) = _
    rw [if_pos hm]
    rfl
  have hzero : ∀ m : List Record, m.length = 0 → (summarize m).positive_rate = 0 := by
    intro m hm
    show (if m.length ≠ 0 then
        ((m.filter (fun r => r.result == "Positive")).length : ℚ) / (m.length : ℚ) * 100
      else 0) = 0
    rw [if_neg (by omega)]
  have hs5 : (summarize c5rows).positive_rate = 100 / 3 := by
    have h := hrate c5rows (by decide)
    have hp : (summarize c5rows).positive = 1 := rfl
    have ht : (summarize c5rows).total = 3 := rfl
    rw [hp, ht] at h
    rw [h]
    norm_num
  refine ⟨rfl, rfl, rfl, rfl, hrate l, hzero l, rfl, rfl, rfl, rfl, hs5, ?_, ?_⟩
  · rw [hs5]; norm_num
  · rw [hs5]; norm_num

/-- Witness for C5 at a one-row input: a single positive record has rate
`100`, by the theorem's rate formula. -/
theorem c5_summary_counts_and_rate_witness :
    (summarize [recCJOY1]).positive_rate = 100 := by
  have h := (c5_summary_counts_and_rate [recCJOY1]).2.2.2.2.1 (by decide)
  have hp : (summarize [recCJOY1]).positive = 1 := rfl
  have ht : (summarize [recCJOY1]).total = 1 := rfl
  rw [hp, ht] at h
  rw [h]
  norm_num

/-! ### C6 — the disease×result pivot -/

/-- **C6.** For every record subset, the disease-by-result pivot has one row
per distinct disease present (rows sorted ascending, no duplicates), one
column per result value occurring among the records, each cell is the count
of records with that `(disease, result)` pair, absent combinations are
zero-filled, and each disease row sums to the number of records with that
disease. -/
theorem c6_pivot_counts (l : List Record) :
    List.Sorted (· ≤ ·) (pivotRowsD l)
    ∧ (pivotRowsD l).Nodup
    ∧ (∀ d, d ∈ pivotRowsD l ↔ ∃ r ∈ l, r.disease = d)
    ∧ List.Sorted (· ≤ ·) (pivotCols l)
    ∧ (pivotCols l).Nodup
    ∧ (∀ c, c ∈ pivotCols l ↔ ∃ r ∈ l, r.result = c)
    ∧ (∀ d c, pivotCell l d c = (l.filter (fun r => r.disease == d && r.result == c)).length)
    ∧ (∀ d c, (¬ ∃ r ∈ l, r.disease = d ∧ r.result = c) → pivotCell l d c = 0)
    ∧ (∀ d, (pivotRow l d).sum = (l.filter (fun r => r.disease == d)).length) := by
  refine ⟨sorted_sortedDistinct _, nodup_sortedDistinct _, ?_,
    sorted_sortedDistinct _, nodup_sortedDistinct _, ?_, fun _ _ => rfl, ?_,
    pivotRow_sum_eq l⟩
  · intro d
    unfold pivotRowsD
    rw [mem_sortedDistinct, List.mem_map]
  · intro c
    unfold pivotCols
    rw [mem_sortedDistinct, List.mem_map]
  · intro d c hno
    unfold pivotCell
    rw [List.length_eq_zero, List.filter_eq_nil_iff]
    intro r hr hrp
    rcases (Bool.and_eq_true _ _).mp hrp with ⟨h1, h2⟩
    exact hno ⟨r, hr, eq_of_beq h1, eq_of_beq h2⟩

/-- Witness for C6: on the four-row fixture the "IBD" pivot row sums to the
number of IBD records, which is 2. -/
theorem c6_pivot_counts_witness : (pivotRow wDF "IBD").sum = 2 := by
  have h := (c6_pivot_counts wDF).2.2.2.2.2.2.2.2 "IBD"
  exact h.trans rfl

/-! ### C7 — `_parse_date_any` format order -/

/-- **C7.** For every date string, parsing tries the formats `%Y.%m.%d`,
`%Y-%m-%d`, `%Y/%m/%d`, `%m/%d/%Y`, `%d/%m/%Y` in that strict order and the
first matching format wins; if none matches, the value is interpreted as a
spreadsheet-epoch serial (days since 1899-12-30, truncated to day
granularity); if both paths fail, parsing errors (`none`).  In particular
`"2025.10.28"` and `"2025-10-28"` parse to the same calendar date. -/
theorem c7_date_parse_first_format_wins :
    (∀ (s : String) (i : Nat) (d : Int), i < 5 →
        (∀ j, j < i → parseFormat j (stripList s.data) = none) →
        parseFormat i (stripList s.data) = some d →
        _parse_date_any s = some d)
    ∧ (∀ (s : String) (d : Int),
        (∀ i, i < 5 → parseFormat i (stripList s.data) = none) →
        excelSerialOrd (stripList s.data) = some d →
        _parse_date_any s = some d)
    ∧ (∀ s : String,
        (∀ i, i < 5 → parseFormat i (stripList s.data) = none) →
        excelSerialOrd (stripList s.data) = none →
        _parse_date_any s = none)
    ∧ _parse_date_any "2025.10.28" = some (toOrd 2025 10 28)
    ∧ _parse_date_any "2025-10-28" = some (toOrd 2025 10 28) := by
  refine ⟨?_, ?_, ?_, rfl, rfl⟩
  · intro s i d hi hpre hsucc
    interval_cases i
    · simp only [_parse_date_any, hsucc]
    · simp only [_parse_date_any, hpre 0 (by omega), hsucc]
    · simp only [_parse_date_any, hpre 0 (by omega), hpre 1 (by omega), hsucc]
    · simp only [_parse_date_any, hpre 0 (by omega), hpre 1 (by omega), hpre 2 (by omega),
        hsucc]
    · simp only [_parse_date_any, hpre 0 (by omega), hpre 1 (by omega), hpre 2 (by omega),
        hpre 3 (by omega), hsucc]
  · intro s d hall hser
    simp only [_parse_date_any, hall 0 (by omega), hall 1 (by omega), hall 2 (by omega),
      hall 3 (by omega), hall 4 (by omega), hser]
  · intro s hall hser
    simp only [_parse_date_any, hall 0 (by omega), hall 1 (by omega), hall 2 (by omega),
      hall 3 (by omega), hall 4 (by omega), hser]

/-- Witness for C7: `"03/04/2025"` fails formats 0-2 and matches the
`%m/%d/%Y` format first, so it parses as March 4 — not April 3. -/
theorem c7_date_parse_first_format_wins_witness :
    _parse_date_any "03/04/2025" = some (toOrd 2025 3 4) := by
  refine c7_date_parse_first_format_wins.1 "03/04/2025" 3 (toOrd 2025 3 4) (by omega) ?_ rfl
  intro j hj
  interval_cases j <;> rfl

/-! ### C8 — `_to_float_ct` never raises -/

/-- **C8.** For every CT input, parsing lowercases and trims it; a sentinel
token (`""`, `"na"`, `"none"`, `"nan"`, `"no ct"`, `"n/a"`) yields an absent
CT (`none`); otherwise a numeric parse is attempted and on failure the CT is
likewise absent.  The embedding is a total function into `Option ℚ` with no
error outcome, mirroring that `_to_float_ct` never raises: every input
produces either a number or the absent value. -/
theorem c8_ct_parse_never_raises (x : String) :
    (lowerStr (stripStr x) ∈ ctSentinels → _to_float_ct x = none)
    ∧ (∀ q, _to_float_ct x = some q → lowerStr (stripStr x) ∉ ctSentinels
        ∧ parseFloatQ (lowerStr (stripStr x)).data = some q)
    ∧ (parseFloatQ (lowerStr (stripStr x)).data = none → _to_float_ct x = none)
    ∧ _to_float_ct "No Ct" = none
    ∧ _to_float_ct " NA " = none
    ∧ _to_float_ct "" = none
    ∧ _to_float_ct "abc" = none
    ∧ (_to_float_ct "31.5").isSome = true := by
  refine ⟨?_, ?_, ?_, rfl, rfl, rfl, rfl, rfl⟩
  · intro h
    unfold _to_float_ct
    rw [if_pos h]
  · intro q hq
    by_cases hmem : lowerStr (stripStr x) ∈ ctSentinels
    · unfold _to_float_ct at hq
      rw [if_pos hmem] at hq
      cases hq
    · refine ⟨hmem, ?_⟩
      unfold _to_float_ct at hq
      rw [if_neg hmem] at hq
      cases hp : parseFloatQ (lowerStr (stripStr x)).data with
      | none => rw [hp] at hq; cases hq
      | some q' =>
        rw [hp] at hq
        exact hq
  · intro hp
    unfold _to_float_ct
    by_cases hmem : lowerStr (stripStr x) ∈ ctSentinels
    · rw [if_pos hmem]
    · rw [if_neg hmem, hp]

/-- Witness for C8: `"n/a"` normalizes to a sentinel, so the CT is absent,
by the theorem's sentinel clause. -/
theorem c8_ct_parse_never_raises_witness : _to_float_ct "n/a" = none :=
  (c8_ct_parse_never_raises "n/a").1 (by decide)

/-! ### C9 — result normalization -/

theorem lc_fiber (c x : Char) (h : lcChar c = x) : c = x ∨ c = ucChar x := by
  unfold lcChar at h
  cases hf : caseTable.find? (fun p => p.2 == c) with
  | none =>
    rw [hf] at h
    exact Or.inl h
  | some p =>
    rw [hf] at h
    have hp2' := @List.find?_some (Char × Char) (fun q => q.2 == c) p caseTable hf
    have hp2 : p.2 = c := eq_of_beq hp2'
    have hmem : p ∈ caseTable := List.mem_of_find?_eq_some hf
    have huc : ∀ q ∈ caseTable, ucChar q.1 = q.2 := by decide
    right
    rw [← h, ← hp2]
    exact (huc p hmem).symm

theorem tc_step_letter (prev : Bool) (c x X : Char) (rest : List Char)
    (hfib : c = x ∨ c = X)
    (h1 : isAsciiLetter x = true) (h2 : isAsciiLetter X = true)
    (h3 : lcChar x = x) (h4 : lcChar X = x) (h5 : ucChar x = X) (h6 : ucChar X = X) :
    tcList prev (c :: rest) = (if prev then x else X) :: tcList true rest := by
  rcases hfib with rfl | rfl
  · cases prev <;> simp [tcList, h1, h3, h5]
  · cases prev <;> simp [tcList, h2, h4, h6]

theorem tc_step_nonletter (prev : Bool) (c : Char) (rest : List Char)
    (h : isAsciiLetter c = false) :
    tcList prev (c :: rest) = c :: tcList false rest := by
  simp [tcList, h]

/-- Any string whose ASCII lowercase is `"re-analysis"` title-cases to
`"Re-Analysis"` — the exact spelling the source's `replace` collapses. -/
theorem tc_reanalysis {l : List Char} (h : lowerList l = "re-analysis".data) :
    tcList false l = "Re-Analysis".data := by
  unfold lowerList at h
  cases l with
  | nil => exact absurd h (by decide)
  | cons c0 t =>
  rw [List.map_cons] at h
  injection h with h0 h
  cases t with
  | nil => exact absurd h (by decide)
  | cons c1 t =>
  rw [List.map_cons] at h
  injection h with h1 h
  cases t with
  | nil => exact absurd h (by decide)
  | cons c2 t =>
  rw [List.map_cons] at h
  injection h with h2 h
  cases t with
  | nil => exact absurd h (by decide)
  | cons c3 t =>
  rw [List.map_cons] at h
  injection h with h3 h
  cases t with
  | nil => exact absurd h (by decide)
  | cons c4 t =>
  rw [List.map_cons] at h
  injection h with h4 h
  cases t with
  | nil => exact absurd h (by decide)
  | cons c5 t =>
  rw [List.map_cons] at h
  injection h with h5 h
  cases t with
  | nil => exact absurd h (by decide)
  | cons c6 t =>
  rw [List.map_cons] at h
  injection h with h6 h
  cases t with
  | nil => exact absurd h (by decide)
  | cons c7 t =>
  rw [List.map_cons] at h
  injection h with h7 h
  cases t with
  | nil => exact absurd h (by decide)
  | cons c8 t =>
  rw [List.map_cons] at h
  injection h with h8 h
  cases t with
  | nil => exact absurd h (by decide)
  | cons c9 t =>
  rw [List.map_cons] at h
  injection h with h9 h
  cases t with
  | nil => exact absurd h (by decide)
  | cons c10 t =>
  rw [List.map_cons] at h
  injection h with h10 h
  have htail : t = [] := List.map_eq_nil_iff.mp h
  subst htail
  have f0 : c0 = 'r' ∨ c0 = 'R' := by
    have := lc_fiber c0 'r' h0
    rwa [show ucChar 'r' = 'R' from rfl] at this
  have f1 : c1 = 'e' ∨ c1 = 'E' := by
    have := lc_fiber c1 'e' h1
    rwa [show ucChar 'e' = 'E' from rfl] at this
  have f2 : c2 = '-' := by
    have := lc_fiber c2 '-' h2
    rwa [show ucChar '-' = '-' from rfl, or_self] at this
  have f3 : c3 = 'a' ∨ c3 = 'A' := by
    have := lc_fiber c3 'a' h3
    rwa [show ucChar 'a' = 'A' from rfl] at this
  have f4 : c4 = 'n' ∨ c4 = 'N' := by
    have := lc_fiber c4 'n' h4
    rwa [show ucChar 'n' = 'N' from rfl] at this
  have f5 : c5 = 'a' ∨ c5 = 'A' := by
    have := lc_fiber c5 'a' h5
    rwa [show ucChar 'a' = 'A' from rfl] at this
  have f6 : c6 = 'l' ∨ c6 = 'L' := by
    have := lc_fiber c6 'l' h6
    rwa [show ucChar 'l' = 'L' from rfl] at this
  have f7 : c7 = 'y' ∨ c7 = 'Y' := by
    have := lc_fiber c7 'y' h7
    rwa [show ucChar 'y' = 'Y' from rfl] at this
  have f8 : c8 = 's' ∨ c8 = 'S' := by
    have := lc_fiber c8 's' h8
    rwa [show ucChar 's' = 'S' from rfl] at this
  have f9 : c9 = 'i' ∨ c9 = 'I' := by
    have := lc_fiber c9 'i' h9
    rwa [show ucChar 'i' = 'I' from rfl] at this
  have f10 : c10 = 's' ∨ c10 = 'S' := by
    have := lc_fiber c10 's' h10
    rwa [show ucChar 's' = 'S' from rfl] at this
  subst f2
  rw [tc_step_letter false c0 'r' 'R' _ f0 rfl rfl rfl rfl rfl rfl]
  rw [tc_step_letter true c1 'e' 'E' _ f1 rfl rfl rfl rfl rfl rfl]
  rw [tc_step_nonletter true '-' _ rfl]
  rw [tc_step_letter false c3 'a' 'A' _ f3 rfl rfl rfl rfl rfl rfl]
  rw [tc_step_letter true c4 'n' 'N' _ f4 rfl rfl rfl rfl rfl rfl]
  rw [tc_step_letter true c5 'a' 'A' _ f5 rfl rfl rfl rfl rfl rfl]
  rw [tc_step_letter true c6 'l' 'L' _ f6 rfl rfl rfl rfl rfl rfl]
  rw [tc_step_letter true c7 'y' 'Y' _ f7 rfl rfl rfl rfl rfl rfl]
  rw [tc_step_letter true c8 's' 'S' _ f8 rfl rfl rfl rfl rfl rfl]
  rw [tc_step_letter true c9 'i' 'I' _ f9 rfl rfl rfl rfl rfl rfl]
  rw [tc_step_letter true c10 's' 'S' _ f10 rfl rfl rfl rfl rfl rfl]
  rfl

/-- **C9.** For every raw result string, normalization trims it,
title-cases it, and collapses any case-insensitive spelling of
`"re-analysis"` (whose title-case is the internally-hyphen-capitalized
`"Re-Analysis"`) to the canonical `Re-analysis`; every other value is the
trimmed title-cased string, retained as-is rather than rejected — also when
it lies outside `{Positive, Negative, Re-analysis}`. -/
theorem c9_result_normalization (s : String) :
    (normalizeResult s = "Re-analysis" ∨ normalizeResult s = titleStr (stripStr s))
    ∧ (lowerStr (stripStr s) = "re-analysis" → normalizeResult s = "Re-analysis")
    ∧ (titleStr (stripStr s) ≠ "Re-Analysis" → normalizeResult s = titleStr (stripStr s))
    ∧ normalizeResult "RE-ANALYSIS" = "Re-analysis"
    ∧ normalizeResult " re-AnAlYsIs " = "Re-analysis"
    ∧ normalizeResult "positive" = "Positive"
    ∧ normalizeResult "inconclusive" = "Inconclusive" := by
  refine ⟨?_, ?_, ?_, rfl, rfl, rfl, rfl⟩
  · simp only [normalizeResult]
    by_cases h : titleStr (stripStr s) = "Re-Analysis"
    · rw [if_pos h]
      exact Or.inl rfl
    · rw [if_neg h]
      exact Or.inr rfl
  · intro h
    have hstrip : lowerList (stripStr s).data = "re-analysis".data := congrArg String.data h
    have ht : titleStr (stripStr s) = "Re-Analysis" := congrArg String.mk (tc_reanalysis hstrip)
    simp only [normalizeResult]
    rw [if_pos ht]
  · intro h
    simp only [normalizeResult]
    rw [if_neg h]

/-- Witness for C9: the all-lowercase spelling collapses to the canonical
one, by the theorem's case-insensitive clause. -/
theorem c9_result_normalization_witness : normalizeResult "re-analysis" = "Re-analysis" :=
  (c9_result_normalization "re-analysis").2.1 rfl

/-! ### C10 — the sample loader's date handling -/

/-- Inverse of `splitSep`: rejoin the parts with the separator. -/
def joinSep (sep : Char) : List (List Char) → List Char
  | [] => []
  | [p] => p
  | p :: ps => p ++ sep :: joinSep sep ps

theorem splitSep_ne_nil (sep : Char) (l : List Char) : splitSep sep l ≠ [] := by
  induction l with
  | nil => simp [splitSep]
  | cons c rest ih =>
    by_cases hc : c = sep
    · simp [splitSep, hc]
    · cases h : splitSep sep rest with
      | nil => exact absurd h ih
      | cons p ps => simp [splitSep, hc, h]

theorem joinSep_splitSep (sep : Char) (l : List Char) :
    joinSep sep (splitSep sep l) = l := by
  induction l with
  | nil => rfl
  | cons c rest ih =>
    by_cases hc : c = sep
    · subst hc
      have h1 : splitSep c (c :: rest) = [] :: splitSep c rest := by simp [splitSep]
      rw [h1]
      cases hr : splitSep c rest with
      | nil => exact absurd hr (splitSep_ne_nil c rest)
      | cons p ps =>
        rw [hr] at ih
        show [] ++ c :: joinSep c (p :: ps) = c :: rest
        rw [List.nil_append, ih]
    · cases hr : splitSep sep rest with
      | nil => exact absurd hr (splitSep_ne_nil sep rest)
      | cons p ps =>
        have h1 : splitSep sep (c :: rest) = (c :: p) :: ps := by simp [splitSep, hc, hr]
        rw [h1]
        rw [hr] at ih
        cases ps with
        | nil =>
          show c :: p = c :: rest
          have : p = rest := ih
          rw [this]
        | cons p2 ps2 =>
          show (c :: p) ++ sep :: joinSep sep (p2 :: ps2) = c :: rest
          have : p ++ sep :: joinSep sep (p2 :: ps2) = rest := ih
          rw [List.cons_append, this]

theorem mem_joinSep {c sep : Char} {ps : List (List Char)} (h : c ∈ joinSep sep ps) :
    c = sep ∨ ∃ p ∈ ps, c ∈ p := by
  induction ps with
  | nil => cases h
  | cons p ps ih =>
    cases ps with
    | nil => exact Or.inr ⟨p, List.mem_cons_self _ _, h⟩
    | cons p2 ps2 =>
      rw [show joinSep sep (p :: p2 :: ps2) = p ++ sep :: joinSep sep (p2 :: ps2) from rfl] at h
      rcases List.mem_append.mp h with h1 | h2
      · exact Or.inr ⟨p, List.mem_cons_self _ _, h1⟩
      · rcases List.mem_cons.mp h2 with rfl | h3
        · exact Or.inl rfl
        · rcases ih h3 with h4 | ⟨q, hq, hcq⟩
          · exact Or.inl h4
          · exact Or.inr ⟨q, List.mem_cons_of_mem _ hq, hcq⟩

theorem splitSep_append_of_no_sep (sep : Char) (a rest : List Char)
    (ha : ∀ c ∈ a, c ≠ sep) :
    splitSep sep (a ++ sep :: rest) = a :: splitSep sep rest := by
  induction a with
  | nil => simp [splitSep]
  | cons c a' ih =>
    have hc : c ≠ sep := ha c (List.mem_cons_self _ _)
    have ih' := ih (fun d hd => ha d (List.mem_cons_of_mem _ hd))
    simp [splitSep, hc, ih']

theorem splitSep_of_no_sep (sep : Char) (a : List Char) (ha : ∀ c ∈ a, c ≠ sep) :
    splitSep sep a = [a] := by
  induction a with
  | nil => rfl
  | cons c a' ih =>
    have hc : c ≠ sep := ha c (List.mem_cons_self _ _)
    have ih' := ih (fun d hd => ha d (List.mem_cons_of_mem _ hd))
    simp [splitSep, hc, ih']

theorem dateFromParts_digits {ys ms ds : List Char} {d : Int}
    (h : dateFromParts ys ms ds = some d) :
    (∀ c ∈ ys, c.isDigit = true) ∧ (∀ c ∈ ms, c.isDigit = true)
      ∧ (∀ c ∈ ds, c.isDigit = true)
      ∧ ys ≠ [] ∧ ms ≠ [] ∧ ds ≠ [] := by
  unfold dateFromParts at h
  split_ifs at h with h1
  · refine ⟨List.all_eq_true.mp h1.2.1, List.all_eq_true.mp h1.2.2.2.2.1,
      List.all_eq_true.mp h1.2.2.2.2.2.2.2, ?_, ?_, ?_⟩
    · have := h1.1
      exact List.ne_nil_of_length_pos (by omega)
    · have := h1.2.2.1
      exact List.ne_nil_of_length_pos (by omega)
    · have := h1.2.2.2.2.2.1
      exact List.ne_nil_of_length_pos (by omega)

theorem fmtYMD_inv {sep : Char} {l : List Char} {d : Int} (h : fmtYMD sep l = some d) :
    ∃ p1 p2 p3, splitSep sep l = [p1, p2, p3] ∧ dateFromParts p1 p2 p3 = some d := by
  unfold fmtYMD at h
  rcases hs : splitSep sep l with _ | ⟨p1, _ | ⟨p2, _ | ⟨p3, _ | ⟨p4, t⟩⟩⟩⟩ <;>
    rw [hs] at h
  · cases h
  · cases h
  · cases h
  · exact ⟨p1, p2, p3, rfl, h⟩
  · cases h

theorem digit_ne_seps {c : Char} (h : c.isDigit = true) :
    c ≠ '.' ∧ c ≠ '-' ∧ c ≠ '/' := by
  refine ⟨?_, ?_, ?_⟩ <;> rintro rfl <;> exact absurd h (by decide)

/-- **C10, counterexample.** On the sample path, dot→dash replacement
followed by strict `%Y-%m-%d` also accepts mixed-separator strings:
`"2025.10-28"` loads successfully even though it is written in neither the
`%Y.%m.%d` nor the `%Y-%m-%d` format (both `strptime` formats reject it), so
"only dates written as YYYY.MM.DD or YYYY-MM-DD load successfully" — and
"any other date format raises an error" — fail on this input. -/
theorem c10_sample_date_counterexample :
    sampleTestDate "2025.10-28" = some (toOrd 2025 10 28)
    ∧ fmtYMD '.' ("2025.10-28").data = none
    ∧ fmtYMD '-' ("2025.10-28").data = none := by
  exact ⟨rfl, rfl, rfl⟩

/-- **C10, amended.** The embedded-sample loader parses `Test_Date` by
replacing every `'.'` with `'-'` and then strictly parsing `%Y-%m-%d`.
Hence every string in `%Y.%m.%d` or `%Y-%m-%d` form loads, with the same
date value as `strptime` would give; every string containing `'/'` (the
`%m/%d/%Y` and `%d/%m/%Y` upload forms) raises an error, as does every
spreadsheet-serial form (a digit string, optionally with a fractional
part) — but strings mixing `'.'` and `'-'` separators may also load, so the
two canonical forms are not the only accepted spellings. -/
theorem c10_sample_date_amended :
    (∀ (s : String) (d : Int), fmtYMD '.' s.data = some d → sampleTestDate s = some d)
    ∧ (∀ (s : String) (d : Int), fmtYMD '-' s.data = some d → sampleTestDate s = some d)
    ∧ (∀ s : String, '/' ∈ s.data → sampleTestDate s = none)
    ∧ (∀ s : String, s.data ≠ [] → (∀ c ∈ s.data, c.isDigit = true) →
        sampleTestDate s = none)
    ∧ (∀ a b : List Char, a ≠ [] → b ≠ [] → (∀ c ∈ a, c.isDigit = true) →
        (∀ c ∈ b, c.isDigit = true) → sampleTestDate ⟨a ++ '.' :: b⟩ = none)
    ∧ sampleTestDate "2025.10.28" = some (toOrd 2025 10 28)
    ∧ sampleTestDate "2025-10-28" = some (toOrd 2025 10 28) := by
  refine ⟨?_, ?_, ?_, ?_, ?_, rfl, rfl⟩
  · intro s d h
    rcases fmtYMD_inv h with ⟨p1, p2, p3, hs, hd⟩
    rcases dateFromParts_digits hd with ⟨d1, d2, d3, _, _, _⟩
    have hstruct : s.data = p1 ++ '.' :: (p2 ++ '.' :: p3) := by
      rw [← joinSep_splitSep '.' s.data, hs]
      rfl
    have hmap1 : p1.map dotToDash = p1 := by
      rw [show p1.map dotToDash = p1.map id from
        List.map_congr_left (fun c hc => by
          unfold dotToDash
          rw [if_neg (digit_ne_seps (d1 c hc)).1]
          rfl)]
      exact List.map_id p1
    have hmap2 : p2.map dotToDash = p2 := by
      rw [show p2.map dotToDash = p2.map id from
        List.map_congr_left (fun c hc => by
          unfold dotToDash
          rw [if_neg (digit_ne_seps (d2 c hc)).1]
          rfl)]
      exact List.map_id p2
    have hmap3 : p3.map dotToDash = p3 := by
      rw [show p3.map dotToDash = p3.map id from
        List.map_congr_left (fun c hc => by
          unfold dotToDash
          rw [if_neg (digit_ne_seps (d3 c hc)).1]
          rfl)]
      exact List.map_id p3
    have hmapdot : dotToDash '.' = '-' := rfl
    unfold sampleTestDate
    rw [hstruct, List.map_append, List.map_cons, List.map_append, List.map_cons,
      hmap1, hmap2, hmap3, hmapdot]
    have hsplit1 : splitSep '-' (p1 ++ '-' :: (p2 ++ '-' :: p3)) = p1 :: splitSep '-' (p2 ++ '-' :: p3) :=
      splitSep_append_of_no_sep '-' p1 _ (fun c hc => (digit_ne_seps (d1 c hc)).2.1)
    have hsplit2 : splitSep '-' (p2 ++ '-' :: p3) = p2 :: splitSep '-' p3 :=
      splitSep_append_of_no_sep '-' p2 _ (fun c hc => (digit_ne_seps (d2 c hc)).2.1)
    have hsplit3 : splitSep '-' p3 = [p3] :=
      splitSep_of_no_sep '-' p3 (fun c hc => (digit_ne_seps (d3 c hc)).2.1)
    unfold fmtYMD
    rw [hsplit1, hsplit2, hsplit3]
    exact hd
  · intro s d h
    rcases fmtYMD_inv h with ⟨p1, p2, p3, hs, hd⟩
    rcases dateFromParts_digits hd with ⟨d1, d2, d3, _, _, _⟩
    have hid : s.data.map dotToDash = s.data := by
      rw [show s.data.map dotToDash = s.data.map id from
        List.map_congr_left (fun c hc => ?_)]
      · exact List.map_id s.data
      · have hc' : c ∈ joinSep '-' (splitSep '-' s.data) := by
          rw [joinSep_splitSep]
          exact hc
        rw [hs] at hc'
        unfold dotToDash
        rcases mem_joinSep hc' with rfl | ⟨p, hp, hcp⟩
        · rw [if_neg (by decide)]
          rfl
        · rcases List.mem_cons.mp hp with rfl | hp'
          · rw [if_neg (digit_ne_seps (d1 c hcp)).1]
            rfl
          · rcases List.mem_cons.mp hp' with rfl | hp''
            · rw [if_neg (digit_ne_seps (d2 c hcp)).1]
              rfl
            · rcases List.mem_cons.mp hp'' with rfl | hp'''
              · rw [if_neg (digit_ne_seps (d3 c hcp)).1]
                rfl
              · cases hp'''
    unfold sampleTestDate
    rw [hid]
    exact h
  · intro s hsl
    cases hst : sampleTestDate s with
    | none => rfl
    | some d =>
      exfalso
      unfold sampleTestDate at hst
      rcases fmtYMD_inv hst with ⟨p1, p2, p3, hs, hd⟩
      rcases dateFromParts_digits hd with ⟨d1, d2, d3, _, _, _⟩
      have hmem : ('/' : Char) ∈ s.data.map dotToDash :=
        List.mem_map.mpr ⟨'/', hsl, rfl⟩
      have hmem' : ('/' : Char) ∈ joinSep '-' (splitSep '-' (s.data.map dotToDash)) := by
        rw [joinSep_splitSep]
        exact hmem
      rw [hs] at hmem'
      rcases mem_joinSep hmem' with h4 | ⟨p, hp, hcp⟩
      · exact absurd h4 (by decide)
      · rcases List.mem_cons.mp hp with rfl | hp'
        · exact absurd (d1 _ hcp) (by decide)
        · rcases List.mem_cons.mp hp' with rfl | hp''
          · exact absurd (d2 _ hcp) (by decide)
          · rcases List.mem_cons.mp hp'' with rfl | hp'''
            · exact absurd (d3 _ hcp) (by decide)
            · cases hp'''
  · intro s hne hdig
    have hid : s.data.map dotToDash = s.data := by
      rw [show s.data.map dotToDash = s.data.map id from
        List.map_congr_left (fun c hc => by
          unfold dotToDash
          rw [if_neg (digit_ne_seps (hdig c hc)).1]
          rfl)]
      exact List.map_id s.data
    have hsplit : splitSep '-' s.data = [s.data] :=
      splitSep_of_no_sep '-' s.data (fun c hc => (digit_ne_seps (hdig c hc)).2.1)
    unfold sampleTestDate fmtYMD
    rw [hid, hsplit]
  · intro a b hna hnb hda hdb
    have hmapa : a.map dotToDash = a := by
      rw [show a.map dotToDash = a.map id from
        List.map_congr_left (fun c hc => by
          unfold dotToDash
          rw [if_neg (digit_ne_seps (hda c hc)).1]
          rfl)]
      exact List.map_id a
    have hmapb : b.map dotToDash = b := by
      rw [show b.map dotToDash = b.map id from
        List.map_congr_left (fun c hc => by
          unfold dotToDash
          rw [if_neg (digit_ne_seps (hdb c hc)).1]
          rfl)]
      exact List.map_id b
    unfold sampleTestDate
    show fmtYMD '-' ((a ++ '.' :: b).map dotToDash) = none
    rw [List.map_append, List.map_cons, hmapa, hmapb,
      show dotToDash '.' = '-' from rfl]
    have hsplit1 : splitSep '-' (a ++ '-' :: b) = a :: splitSep '-' b :=
      splitSep_append_of_no_sep '-' a b (fun c hc => (digit_ne_seps (hda c hc)).2.1)
    have hsplit2 : splitSep '-' b = [b] :=
      splitSep_of_no_sep '-' b (fun c hc => (digit_ne_seps (hdb c hc)).2.1)
    unfold fmtYMD
    rw [hsplit1, hsplit2]

/-- Witness for the amended C10: the serial string `"45000"` (accepted on
the upload path) raises on the sample path, by the digit-string clause. -/
theorem c10_sample_date_amended_witness :
    sampleTestDate "45000" = none ∧ _parse_date_any "45000" = some (toOrd 1899 12 30 + 45000) := by
  constructor
  · exact c10_sample_date_amended.2.2.2.1 "45000" (by decide) (by decide)
  · have hpf : parseFloatQ (stripList "45000".data)
        = some ((1 : ℚ) * ((digitsVal ['4', '5', '0', '0', '0'] : Nat) : ℚ)) := rfl
    have hfl : (⌊(1 : ℚ) * ((digitsVal ['4', '5', '0', '0', '0'] : Nat) : ℚ)⌋ : Int) = 45000 := by
      norm_num
      rfl
    simp only [_parse_date_any, show parseFormat 0 (stripList "45000".data) = none from rfl,
      show parseFormat 1 (stripList "45000".data) = none from rfl,
      show parseFormat 2 (stripList "45000".data) = none from rfl,
      show parseFormat 3 (stripList "45000".data) = none from rfl,
      show parseFormat 4 (stripList "45000".data) = none from rfl]
    unfold excelSerialOrd
    simp only [hpf]
    rw [hfl]
    rw [if_pos (by constructor <;> decide)]

end Diag
